import Mathlib

/-
Verification of the Starvell-cardinal polling / change-detection / scheduling
core.  Shallow embedding of:

  * `StarvellService.check_new_orders`   (src/bot/core/services.py, 346-371)
  * `StarvellService.check_new_messages` (src/bot/core/services.py, 256-344)
  * `AutoRaiseService._optimize_next_call` (src/bot/features/auto_raise.py, 215-271)
  * `AutoRaiseService._raise_game_lots`    (src/bot/features/auto_raise.py, 273-379)
  * `AutoRaiseService._parse_wait_time`    (src/bot/features/auto_raise.py, 381-449)
  * `AutoTicketService` cooldown/persistence (src/bot/features/autoticket.py)
  * `BackgroundTasks._check_new_messages` dedup (src/bot/features/tasks.py, 132-240)

Python dictionaries used as persistent key/value stores (storage.py) are
modelled as association lists; `dict.get` returning `None` is modelled with
`Option`.  Python string ids are kept abstract (a type with decidable
equality) where only equality matters, and instantiated with `Nat` where the
spec speaks about an external "newer-than" ordering of message ids.
-/

namespace Starvell

/-! ## Order change detection (`check_new_orders`, services.py 346-371)

An order snapshot as produced by the remote fetch: `order.get("id")` and
`order.get("status")`; both may be absent (`None`), modelled by `Option`.
A falsy id (`if not order_id: continue`) is modelled as `none`. -/

structure OrderSnap where
  id : Option String
  status : Option String
deriving DecidableEq, Repr

/-- The persisted order-status store (`cache.json`'s `last_orders` map,
storage.py 65-83): order id -> last stored status.  `lookupOrder` is
`db.get_last_order(order_id)` followed by reading `["status"]`. -/
def OrderDB : Type := List (String × Option String)

def lookupOrder (db : OrderDB) (oid : String) : Option (Option String) :=
  (db.find? (fun e => e.1 = oid)).map Prod.snd

/-- `db.set_last_order(order_id, status)` overwrites the entry. -/
def setOrder (db : OrderDB) (oid : String) (st : Option String) : OrderDB :=
  (oid, st) :: db.filter (fun e => ¬ e.1 = oid)

/-- `StarvellService.check_new_orders` (services.py 346-371): for each fetched
order, skip falsy ids; if the order is unknown, emit it and store its status;
if the stored status differs from the observed one, emit it and store the new
status; otherwise emit nothing and leave the store unchanged.  Returns the
emitted orders (in fetch order) and the updated store. -/
def checkNewOrders (db : OrderDB) : List OrderSnap → List OrderSnap × OrderDB
  | [] => ([], db)
  | o :: rest =>
    match o.id with
    | none => checkNewOrders db rest
    | some oid =>
      match lookupOrder db oid with
      | none =>
        let r := checkNewOrders (setOrder db oid o.status) rest
        (o :: r.1, r.2)
      | some prev =>
        if prev ≠ o.status then
          let r := checkNewOrders (setOrder db oid o.status) rest
          (o :: r.1, r.2)
        else
          checkNewOrders db rest

/-- Successive polls of a single order with the given remote statuses: each
poll calls `checkNewOrders` on a one-element snapshot list; all emitted events
are concatenated. -/
def pollOrderRun (oid : String) (db : OrderDB) : List (Option String) → List OrderSnap
  | [] => []
  | st :: rest =>
    let r := checkNewOrders db [⟨some oid, st⟩]
    r.1 ++ pollOrderRun oid r.2 rest

/-- C1.  An order event fires iff the observed status differs from the stored
`last_known_status` (with an unknown order, `lookupOrder = none ≠ some st`,
always firing once on first observation); and a single order polled five times
with remote statuses `[CREATED, CREATED, PAID, PAID, COMPLETED]` emits exactly
three events: on the first observation (`CREATED`), on the change to `PAID`,
and on the change to `COMPLETED`. -/
theorem check_new_orders_fires_iff_status_changed :
    (∀ (oid : String) (st : Option String) (db : OrderDB),
      (checkNewOrders db [⟨some oid, st⟩]).1
        = if lookupOrder db oid ≠ some st then [⟨some oid, st⟩] else [])
    ∧ pollOrderRun "o1" []
        [some "CREATED", some "CREATED", some "PAID", some "PAID", some "COMPLETED"]
      = [⟨some "o1", some "CREATED"⟩, ⟨some "o1", some "PAID"⟩,
         ⟨some "o1", some "COMPLETED"⟩] := by
  constructor
  · intro oid st db
    simp only [checkNewOrders]
    rcases h : lookupOrder db oid with _ | prev
    · simp [h]
    · by_cases hne : prev ≠ st
      · simp [h, hne, checkNewOrders]
      · simp at hne
        simp [h, hne, checkNewOrders]
  · decide

/-! ## Message change detection (`check_new_messages`, services.py 256-344)

A fetched chat message, keeping only what the detection logic inspects:
`msg.get("id")`, which may be `None` (modelled `none`).  The id type is left
abstract; equality is all the code uses, except for the monotonicity claim
where ids are instantiated with `Nat` to express the external "newer-than"
ordering. -/

structure Msg (α : Type) where
  id : Option α
deriving DecidableEq, Repr

/-- The id of the newest (first) message of a fetched window:
`messages[0].get("id")`. -/
def headId {α : Type} (window : List (Msg α)) : Option α :=
  window.head?.bind Msg.id

/-- The body of the per-chat loop of `check_new_messages` (services.py
280-342) for one chat, given the chat's reported unread count, the stored
cursor (`db.get_last_message`; `none` covers both "no entry" and a stored
`None`, which `storage.py` does not distinguish) and the fetched window
(newest message first, `limit=10` upstream).  Returns the emitted messages
and the new stored cursor value.

* chats with unread count 0 are filtered out before any fetch
  (services.py 273): nothing is emitted, the cursor is untouched;
* an empty window hits `if not messages: continue` (293-294);
* with no stored cursor, the last `min(unread_count, len(messages))`
  messages are emitted (297-307) and the cursor is set to
  `messages[0].get("id")` unconditionally (310);
* with a stored cursor, the window is scanned newest-to-oldest and the scan
  breaks at the first message whose id equals the cursor (318-329); the
  cursor is then set to `messages[0].get("id")` only if that id is truthy
  (335-338). -/
def processChat {α : Type} [DecidableEq α] (unread : Nat) (stored : Option α)
    (window : List (Msg α)) : List (Msg α) × Option α :=
  if unread = 0 then ([], stored)
  else
    match window with
    | [] => ([], stored)
    | first :: _ =>
      match stored with
      | none =>
        (window.take (min unread window.length), first.id)
      | some c =>
        let evs := window.takeWhile (fun m => ¬ m.id = some c)
        let newStored := match first.id with
          | some lid => some lid
          | none => stored
        (evs, newStored)

theorem processChat_zero {α : Type} [DecidableEq α] (stored : Option α)
    (window : List (Msg α)) : processChat 0 stored window = ([], stored) := by
  simp [processChat]

theorem processChat_nil {α : Type} [DecidableEq α] (u : Nat) (stored : Option α) :
    processChat u stored [] = ([], stored) := by
  unfold processChat
  by_cases h : u = 0 <;> simp [h]

theorem processChat_none {α : Type} [DecidableEq α] {u : Nat} (hu : u ≠ 0)
    (first : Msg α) (rest : List (Msg α)) :
    processChat u none (first :: rest)
      = ((first :: rest).take (min u (first :: rest).length), first.id) := by
  simp [processChat, hu]

theorem processChat_some {α : Type} [DecidableEq α] {u : Nat} (hu : u ≠ 0)
    (c : α) (first : Msg α) (rest : List (Msg α)) :
    processChat u (some c) (first :: rest)
      = ((first :: rest).takeWhile (fun m => ¬ m.id = some c),
         match first.id with
         | some lid => some lid
         | none => some c) := by
  simp [processChat, hu]

/-- `processChat` either leaves the stored cursor unchanged (skipped poll or
empty window) or sets it to the id of the newest message of the window. -/
theorem processChat_snd_cases {u : Nat} (st : Option Nat) (w : List (Msg Nat))
    (hw : w ≠ [] → (headId w).isSome) :
    (processChat u st w).2 = st ∨
    (∃ h, headId w = some h ∧ (processChat u st w).2 = some h) := by
  by_cases hu : u = 0
  · left; rw [hu, processChat_zero]
  · cases w with
    | nil => left; rw [processChat_nil]
    | cons first rest =>
      have hsome := hw (by simp)
      rw [Option.isSome_iff_exists] at hsome
      obtain ⟨h, hh⟩ := hsome
      have hfid : first.id = some h := by simpa [headId] using hh
      right
      refine ⟨h, hh, ?_⟩
      cases st with
      | none => rw [processChat_none hu]; exact hfid
      | some c => rw [processChat_some hu]; simp [hfid]

/-- With a stored cursor, the emitted messages are exactly the prefix of the
(newest-first) window strictly before the first occurrence of the cursor id,
and the cursor is afterwards set to the window-head id whenever that id is
present — whether or not the old cursor id occurred in the window. -/
theorem processChat_cursor_emission {u : Nat} (hu : u ≠ 0) (c : Nat)
    (w : List (Msg Nat)) (hw : w ≠ []) :
    (∃ rest, w = (processChat u (some c) w).1 ++ rest
      ∧ (∀ m ∈ (processChat u (some c) w).1, ¬ m.id = some c)
      ∧ (∀ m, rest.head? = some m → m.id = some c))
    ∧ (∀ lid, headId w = some lid → (processChat u (some c) w).2 = some lid) := by
  cases w with
  | nil => exact absurd rfl hw
  | cons first tail =>
    rw [processChat_some hu]
    constructor
    · refine ⟨(first :: tail).dropWhile (fun m => ¬ m.id = some c), ?_, ?_, ?_⟩
      · exact (List.takeWhile_append_dropWhile (fun m => decide (¬ m.id = some c))
          (first :: tail)).symm
      · intro m hm
        have := List.mem_takeWhile_imp hm
        simpa using this
      · intro m hm
        have := List.head?_dropWhile_not (fun m => decide (¬ m.id = some c)) (first :: tail)
        rw [hm] at this
        simpa using this
    · intro lid hlid
      have hfid : first.id = some lid := by simpa [headId] using hlid
      simp [hfid]

/-- Successive stored-cursor values for one chat across a list of polls, each
poll given as `(unread count, fetched window)`. -/
def chatCursorTrace (stored : Option Nat) : List (Nat × List (Msg Nat)) → List (Option Nat)
  | [] => []
  | p :: ps =>
    let st := (processChat p.1 stored p.2).2
    st :: chatCursorTrace st ps

/-- The window-head ids seen across a list of polls, in poll order. -/
def windowHeads (polls : List (Nat × List (Msg Nat))) : List Nat :=
  polls.filterMap (fun p => headId p.2)

theorem windowHeads_cons_mem (p : Nat × List (Msg Nat)) (ps : List (Nat × List (Msg Nat)))
    {h : Nat} (hh : headId p.2 = some h) : h ∈ windowHeads (p :: ps) := by
  simp [windowHeads, List.filterMap_cons, hh]

theorem windowHeads_tail_sub (p : Nat × List (Msg Nat)) (ps : List (Nat × List (Msg Nat))) :
    ∀ x ∈ windowHeads ps, x ∈ windowHeads (p :: ps) := by
  intro x hx
  simp only [windowHeads, List.filterMap_cons]
  rcases headId p.2 with _ | h <;> simp [windowHeads] at hx ⊢ <;> simp [hx]

theorem windowHeads_pairwise_tail {p : Nat × List (Msg Nat)} {ps : List (Nat × List (Msg Nat))}
    (h2 : (windowHeads (p :: ps)).Pairwise (· ≤ ·)) :
    (windowHeads ps).Pairwise (· ≤ ·) := by
  rcases hh : headId p.2 with _ | h
  · simpa [windowHeads, List.filterMap_cons, hh] using h2
  · simp only [windowHeads, List.filterMap_cons, hh] at h2
    exact h2.of_cons

theorem windowHeads_head_le {p : Nat × List (Msg Nat)} {ps : List (Nat × List (Msg Nat))}
    {h : Nat} (hh : headId p.2 = some h)
    (h2 : (windowHeads (p :: ps)).Pairwise (· ≤ ·)) :
    ∀ x ∈ windowHeads ps, h ≤ x := by
  simp only [windowHeads, List.filterMap_cons, hh] at h2
  exact (List.pairwise_cons.mp h2).1

theorem filterMap_id_cons_pairwise (st : Option Nat) (L : List (Option Nat))
    (ihp : (L.filterMap id).Pairwise (· ≤ ·))
    (ihb : ∀ c, st = some c → ∀ v ∈ L.filterMap id, c ≤ v) :
    ((st :: L).filterMap id).Pairwise (· ≤ ·) := by
  cases st with
  | none => simpa [List.filterMap_cons] using ihp
  | some v =>
    rw [List.filterMap_cons]
    simp only [id_eq]
    rw [List.pairwise_cons]
    exact ⟨fun v' hv' => ihb v rfl v' hv', ihp⟩

theorem filterMap_id_cons_mem {st : Option Nat} {L : List (Option Nat)} {v : Nat}
    (hv : v ∈ (st :: L).filterMap id) : st = some v ∨ v ∈ L.filterMap id := by
  rw [List.filterMap_cons] at hv
  cases st with
  | none => right; simpa using hv
  | some w =>
    simp only [id_eq] at hv
    rcases List.mem_cons.mp hv with rfl | h
    · left; rfl
    · right; exact h

/-- Induction workhorse for cursor monotonicity: if every nonempty window has
a present head id, window heads are pairwise nondecreasing across polls, and
the starting cursor (when set) is below every upcoming window head, then the
realised cursor values are pairwise nondecreasing and all bounded below by
the starting cursor. -/
theorem chatCursor_aux :
    ∀ (polls : List (Nat × List (Msg Nat))) (st : Option Nat),
      (∀ p ∈ polls, p.2 ≠ [] → (headId p.2).isSome) →
      (windowHeads polls).Pairwise (· ≤ ·) →
      (∀ c, st = some c → ∀ h ∈ windowHeads polls, c ≤ h) →
      ((chatCursorTrace st polls).filterMap id).Pairwise (· ≤ ·) ∧
      (∀ c, st = some c → ∀ v ∈ (chatCursorTrace st polls).filterMap id, c ≤ v)
  | [], st, _, _, _ => by simp [chatCursorTrace]
  | p :: ps, st, h1, h2, hinv => by
    have htail1 : ∀ q ∈ ps, q.2 ≠ [] → (headId q.2).isSome := by
      intro q hq; exact h1 q (by simp [hq])
    have htail2 := windowHeads_pairwise_tail h2
    have htr : chatCursorTrace st (p :: ps)
        = (processChat p.1 st p.2).2 :: chatCursorTrace (processChat p.1 st p.2).2 ps := rfl
    rcases processChat_snd_cases (u := p.1) st p.2 (h1 p (by simp)) with heq | ⟨h, hhead, heq⟩
    · -- cursor unchanged on this poll
      have hinv' : ∀ c, st = some c → ∀ h' ∈ windowHeads ps, c ≤ h' := by
        intro c hc h' hh'
        exact hinv c hc h' (windowHeads_tail_sub p ps h' hh')
      obtain ⟨ihp, ihb⟩ := chatCursor_aux ps st htail1 htail2 hinv'
      rw [htr, heq]
      constructor
      · exact filterMap_id_cons_pairwise st _ ihp ihb
      · intro c hc v hv
        rcases filterMap_id_cons_mem hv with hfirst | hvtail
        · rw [hc] at hfirst
          injection hfirst with hfirst
          rw [hfirst]
        · exact ihb c hc v hvtail
    · -- cursor set to the head id of this poll's window
      have hinv' : ∀ c, (some h : Option Nat) = some c → ∀ h' ∈ windowHeads ps, c ≤ h' := by
        intro c hc h' hh'
        injection hc with hc; subst hc
        exact windowHeads_head_le hhead h2 h' hh'
      obtain ⟨ihp, ihb⟩ := chatCursor_aux ps (some h) htail1 htail2 hinv'
      rw [htr, heq]
      constructor
      · exact filterMap_id_cons_pairwise (some h) _ ihp ihb
      · intro c hc v hv
        have hch : c ≤ h := hinv c hc h (windowHeads_cons_mem p ps hhead)
        rcases filterMap_id_cons_mem hv with hfirst | hvtail
        · injection hfirst with hfirst
          rw [← hfirst]
          exact hch
        · exact le_trans hch (ihb h rfl v hvtail)

/-- C2.  For a chat with a stored cursor: the emitted messages are exactly
those encountered in the newest-to-oldest scan of the window before the
stored cursor id is reached, and the cursor is afterwards set to the newest
message id of the window whether or not the old cursor id was found; and
across any sequence of polls whose (newest-first) window-head ids are
nondecreasing — the external messages being monotonically increasing — the
stored cursor values realised from a fresh start are pairwise nondecreasing:
the cursor is never set to a message older than any previously stored id. -/
theorem check_new_messages_cursor_advance_and_monotone :
    (∀ (u c : Nat) (w : List (Msg Nat)), u ≠ 0 → w ≠ [] →
      (∃ rest, w = (processChat u (some c) w).1 ++ rest
        ∧ (∀ m ∈ (processChat u (some c) w).1, ¬ m.id = some c)
        ∧ (∀ m, rest.head? = some m → m.id = some c))
      ∧ (∀ lid, headId w = some lid → (processChat u (some c) w).2 = some lid))
    ∧ (∀ polls : List (Nat × List (Msg Nat)),
        (∀ p ∈ polls, p.2 ≠ [] → (headId p.2).isSome) →
        (windowHeads polls).Pairwise (· ≤ ·) →
        ((chatCursorTrace none polls).filterMap id).Pairwise (· ≤ ·)) := by
  constructor
  · intro u c w hu hw
    exact processChat_cursor_emission hu c w hw
  · intro polls h1 h2
    exact (chatCursor_aux polls none h1 h2 (by intro c hc; cases hc)).1

/-- Witness for `check_new_messages_cursor_advance_and_monotone`: poll 1 sees
window `[2, 1]` with no cursor (cursor becomes 2), poll 2 sees `[4, 3, 2]`
with cursor 2. -/
theorem check_new_messages_cursor_advance_and_monotone_witness :
    ((∃ rest, [Msg.mk (some 4), ⟨some 3⟩, ⟨some 2⟩]
        = (processChat 1 (some 2) [Msg.mk (some 4), ⟨some 3⟩, ⟨some 2⟩]).1 ++ rest
      ∧ (∀ m ∈ (processChat 1 (some 2) [Msg.mk (some 4), ⟨some 3⟩, ⟨some 2⟩]).1,
          ¬ m.id = some 2)
      ∧ (∀ m, rest.head? = some m → m.id = some 2))
     ∧ (∀ lid, headId [Msg.mk (some 4), ⟨some 3⟩, ⟨some 2⟩] = some lid →
        (processChat 1 (some 2) [Msg.mk (some 4), ⟨some 3⟩, ⟨some 2⟩]).2 = some lid))
    ∧ ((chatCursorTrace none
        [(1, [Msg.mk (some 2), ⟨some 1⟩]), (1, [Msg.mk (some 4), ⟨some 3⟩, ⟨some 2⟩])]).filterMap
          id).Pairwise (· ≤ ·) := by
  constructor
  · exact check_new_messages_cursor_advance_and_monotone.1 1 2
      [Msg.mk (some 4), ⟨some 3⟩, ⟨some 2⟩] (by decide) (by decide)
  · exact check_new_messages_cursor_advance_and_monotone.2
      [(1, [Msg.mk (some 2), ⟨some 1⟩]), (1, [Msg.mk (some 4), ⟨some 3⟩, ⟨some 2⟩])]
      (by decide) (by decide)

/-- C6 counterexample.  A chat observed for the first time (no stored cursor)
whose reported unread count is 0 is filtered out of `unread_chats`
(services.py 273) before any fetch: no event is emitted, but — contrary to
the claim — the newest message id (here 7) is *not* stored as the cursor;
the cursor stays unset. -/
theorem first_observation_zero_unread_stores_no_cursor :
    processChat 0 (none : Option Nat) [⟨some 7⟩] = ([], none)
    ∧ (processChat 0 (none : Option Nat) [⟨some 7⟩]).2 ≠ some 7 := by
  decide

/-- C6 (amended).  A chat with unread count 0 is skipped entirely: no events
and no cursor write.  A first-observed chat (no stored cursor) with nonzero
unread count and a nonempty window emits the first `min(unread, |window|)`
messages of the window and stores the newest message id as the cursor; in
particular the number of emitted events is `min(unread, |window|)` —
concretely 3 events for unread count 3 with ≥ 3 messages available, and 0
events (and no cursor write) for unread count 0. -/
theorem first_observation_suppression_amended :
    (∀ (st : Option Nat) (w : List (Msg Nat)), processChat 0 st w = ([], st))
    ∧ (∀ (u : Nat) (w : List (Msg Nat)), u ≠ 0 → w ≠ [] →
        processChat u none w = (w.take (min u w.length), headId w))
    ∧ (∀ (u : Nat) (w : List (Msg Nat)), u ≠ 0 →
        (processChat u none w).1.length = min u w.length)
    ∧ (processChat 3 (none : Option Nat)
        [⟨some 9⟩, ⟨some 8⟩, ⟨some 7⟩, ⟨some 6⟩]).1.length = 3
    ∧ processChat 0 (none : Option Nat)
        [⟨some 9⟩, ⟨some 8⟩, ⟨some 7⟩, ⟨some 6⟩] = ([], none) := by
  refine ⟨fun st w => processChat_zero st w, ?_, ?_, by decide, by decide⟩
  · intro u w hu hw
    cases w with
    | nil => exact absurd rfl hw
    | cons first rest =>
      rw [processChat_none hu]
      simp [headId]
  · intro u w hu
    cases w with
    | nil => simp [processChat_nil]
    | cons first rest =>
      rw [processChat_none hu]
      simp [min_assoc]

/-- Witness for `first_observation_suppression_amended`. -/
theorem first_observation_suppression_amended_witness :
    processChat 2 (none : Option Nat) [⟨some 9⟩, ⟨some 8⟩, ⟨some 7⟩]
      = ([⟨some 9⟩, ⟨some 8⟩], some 9)
    ∧ (processChat 5 (none : Option Nat) [⟨some 9⟩, ⟨some 8⟩]).1.length = 2 := by
  constructor
  · have h := first_observation_suppression_amended.2.1 2
      [⟨some 9⟩, ⟨some 8⟩, ⟨some 7⟩] (by decide) (by decide)
    rw [h]
    decide
  · have h := first_observation_suppression_amended.2.2.1 5
      [⟨some 9⟩, ⟨some 8⟩] (by decide)
    rw [h]
    decide

/-! ## Whole-call failure semantics (`check_new_messages`, services.py 256-344)

The outer loop with the per-chat remote fetch made explicit: each chat
snapshot carries `chat.get("id")`, its unread count, and the result of
`get_messages(chat_id, limit=10)` — either a window or a raised exception
(`Except.error`).  There is no try/except inside the loop, so a failed fetch
propagates and aborts the whole call; the model's `Except.error` carries the
store as it stood at the failure (earlier chats' cursor writes persist). -/

structure ChatSnap (α : Type) where
  id : Option String
  unread : Nat
  fetch : Except String (List (Msg α))

/-- The persisted chat-cursor store (`cache.json`'s `last_messages` map). -/
def MsgDB (α : Type) : Type := List (String × Option α)

def lookupMsg {α : Type} (db : MsgDB α) (cid : String) : Option α :=
  ((db.find? (fun e => e.1 = cid)).map Prod.snd).join

def setMsg {α : Type} (db : MsgDB α) (cid : String) (v : Option α) : MsgDB α :=
  (cid, v) :: db.filter (fun e => ¬ e.1 = cid)

/-- `StarvellService.check_new_messages` over a list of chat snapshots:
chats with unread count 0 are filtered out, falsy chat ids are skipped, a
fetch failure propagates (aborting the remaining chats), and otherwise the
per-chat logic `processChat` runs and its cursor is written back.  Emitted
events are `(chat_id, message)` pairs in encounter order. -/
def checkNewMessages {α : Type} [DecidableEq α] (db : MsgDB α) :
    List (ChatSnap α) → Except (MsgDB α) (List (String × Msg α) × MsgDB α)
  | [] => .ok ([], db)
  | c :: rest =>
    if c.unread = 0 then checkNewMessages db rest
    else match c.id with
      | none => checkNewMessages db rest
      | some cid =>
        match c.fetch with
        | .error _ => .error db
        | .ok msgs =>
          let r := processChat c.unread (lookupMsg db cid) msgs
          match checkNewMessages (setMsg db cid r.2) rest with
          | .error d => .error d
          | .ok (evs, d) => .ok (r.1.map (fun m => (cid, m)) ++ evs, d)

/-- A failing fetch for the first reached chat makes the whole call raise. -/
theorem checkNewMessages_error_head {α : Type} [DecidableEq α]
    (c : ChatSnap α) (rest : List (ChatSnap α)) (db : MsgDB α) (cid : String) (m : String)
    (hu : c.unread ≠ 0) (hid : c.id = some cid) (hf : c.fetch = .error m) :
    checkNewMessages db (c :: rest) = .error db := by
  simp [checkNewMessages, hu, hid, hf]

/-- Detection over `l1` followed, on success, by detection over `l2` from
the updated store; an error anywhere short-circuits. -/
def checkSeq {α : Type} [DecidableEq α] (db : MsgDB α)
    (l1 l2 : List (ChatSnap α)) : Except (MsgDB α) (List (String × Msg α) × MsgDB α) :=
  match checkNewMessages db l1 with
  | .error d => .error d
  | .ok (evs, d) =>
    match checkNewMessages d l2 with
    | .error d2 => .error d2
    | .ok (e2, d2) => .ok (evs ++ e2, d2)

/-- Sequencing: detection over `l1 ++ l2` equals sequenced detection. -/
theorem checkNewMessages_append {α : Type} [DecidableEq α] :
    ∀ (l1 l2 : List (ChatSnap α)) (db : MsgDB α),
    checkNewMessages db (l1 ++ l2) = checkSeq db l1 l2
  | [], l2, db => by
    simp only [List.nil_append, checkSeq, checkNewMessages]
    cases h : checkNewMessages db l2 with
    | error d => simp
    | ok p => cases p; simp
  | c :: l1, l2, db => by
    by_cases hu : c.unread = 0
    · simp only [List.cons_append, checkSeq, checkNewMessages, hu, if_true]
      have := checkNewMessages_append l1 l2 db
      simp only [checkSeq] at this
      exact this
    · cases hid : c.id with
      | none =>
        simp only [List.cons_append, checkSeq, checkNewMessages, hu, if_false, hid]
        have := checkNewMessages_append l1 l2 db
        simp only [checkSeq] at this
        exact this
      | some cid =>
        cases hf : c.fetch with
        | error m =>
          simp only [List.cons_append, checkSeq, checkNewMessages, hu, if_false, hid, hf]
        | ok msgs =>
          simp only [List.cons_append, checkSeq, checkNewMessages, hu, if_false, hid, hf,
            List.append_eq]
          have ih := checkNewMessages_append l1 l2
            (setMsg db cid (processChat c.unread (lookupMsg db cid) msgs).2)
          simp only [checkSeq] at ih
          rw [ih]
          cases h1 : checkNewMessages
              (setMsg db cid (processChat c.unread (lookupMsg db cid) msgs).2) l1 with
          | error d => rfl
          | ok p =>
            obtain ⟨evs, d⟩ := p
            cases h2 : checkNewMessages d l2 with
            | error d2 => simp [h2]
            | ok p2 =>
              obtain ⟨e2, d2⟩ := p2
              simp [h2]

/-- C7 counterexample.  Chat `c2` alone yields one event, but with a chat
`c1` whose fetch fails placed before it, the whole `check_new_messages` call
raises (`Except.error`): the per-chat failure is not isolated, `c2`'s event
is lost, and no count of failed entities is returned — the call's only
outcomes are a plain event list or a raised exception. -/
theorem per_chat_failure_not_isolated :
    checkNewMessages ([] : MsgDB Nat)
      [⟨some "c1", 1, .error "boom"⟩, ⟨some "c2", 1, .ok [⟨some 5⟩]⟩]
      = .error []
    ∧ checkNewMessages ([] : MsgDB Nat) [⟨some "c2", 1, .ok [⟨some 5⟩]⟩]
      = .ok ([("c2", ⟨some 5⟩)], [("c2", some 5)]) := by
  constructor <;> rfl

/-- C7 (amended).  A per-chat fetch failure is *not* isolated: as soon as a
processed chat's fetch raises, the whole `check_new_messages` call raises,
events detected for chats processed earlier in the same call are discarded
(the caller in `tasks.py` catches the exception at the job boundary), and no
failed-entity count is returned.  Detection over a concatenation sequences
the store through the first part and short-circuits on error. -/
theorem per_chat_failure_aborts_call :
    (∀ (c : ChatSnap Nat) (rest : List (ChatSnap Nat)) (db : MsgDB Nat)
        (cid : String) (m : String),
      c.unread ≠ 0 → c.id = some cid → c.fetch = .error m →
      checkNewMessages db (c :: rest) = .error db)
    ∧ (∀ (l1 l2 : List (ChatSnap Nat)) (db : MsgDB Nat),
        checkNewMessages db (l1 ++ l2) = checkSeq db l1 l2) :=
  ⟨fun c rest db cid m hu hid hf => checkNewMessages_error_head c rest db cid m hu hid hf,
   fun l1 l2 db => checkNewMessages_append l1 l2 db⟩

/-- Witness for `per_chat_failure_aborts_call`. -/
theorem per_chat_failure_aborts_call_witness :
    checkNewMessages ([("c0", some 1)] : MsgDB Nat)
      [⟨some "c1", 2, .error "boom"⟩, ⟨some "c2", 1, .ok [⟨some 5⟩]⟩]
      = .error [("c0", some 1)] :=
  per_chat_failure_aborts_call.1 ⟨some "c1", 2, .error "boom"⟩
    [⟨some "c2", 1, .ok [⟨some 5⟩]⟩] [("c0", some 1)] "c1" "boom"
    (by decide) rfl rfl

/-! ## Wake-up grouping optimizer (`_optimize_next_call`, auto_raise.py 215-271) -/

/-- `AutoRaiseService._optimize_next_call` (auto_raise.py 215-271): sort the
next-run timestamps, take the earliest; if the time to the earliest is below
half an hour return it unchanged, otherwise round the wait up to the next
multiple of 1800 s with `((tte + 1800 - 1) // 1800) * 1800` (Python floor
division is `Int.fdiv`).  The empty-list guard returns
`current_time + AUTO_BUMP_INTERVAL` (here an argument).  The grouped-count
computation (auto_raise.py 250-269) only logs and does not affect the
returned value. -/
def optimizeNextCall (nextTimes : List Int) (currentTime : Int) (autoBumpInterval : Int) : Int :=
  match nextTimes.mergeSort (fun a b => a ≤ b) with
  | [] => currentTime + autoBumpInterval
  | earliest :: _ =>
    let timeToEarliest := earliest - currentTime
    if timeToEarliest < 1800 then earliest
    else currentTime + ((timeToEarliest + 1800 - 1).fdiv 1800) * 1800

/-- The head of the ascending merge sort is the minimum of the list. -/
theorem mergeSort_head_min (l : List Int) (e : Int) (he : e ∈ l) (hmin : ∀ x ∈ l, e ≤ x) :
    (l.mergeSort (fun a b => a ≤ b)).head? = some e := by
  have hperm := List.mergeSort_perm l (fun a b => decide (a ≤ b))
  have hsorted := @List.sorted_mergeSort Int (fun a b => decide (a ≤ b))
    (by intro a b c hab hbc; simp at hab hbc ⊢; omega)
    (by intro a b; simp; omega) l
  cases h : l.mergeSort (fun a b => a ≤ b) with
  | nil =>
    have hnil : l = [] := List.eq_nil_of_length_eq_zero (by
      have hl := hperm.length_eq
      rw [h] at hl
      simpa using hl.symm)
    rw [hnil] at he; cases he
  | cons a t =>
    have ha : a ∈ l := hperm.mem_iff.mp (by rw [h]; simp)
    have hea : e ≤ a := hmin a ha
    have hae : a ≤ e := by
      have hme : e ∈ a :: t := by rw [← h]; exact hperm.mem_iff.mpr he
      rcases List.mem_cons.mp hme with rfl | het
      · exact le_refl _
      · rw [h] at hsorted
        have := (List.pairwise_cons.mp hsorted).1 e het
        simpa using this
    rw [le_antisymm hae hea]
    rfl

/-- C4.  For a nonempty candidate list with minimum `e`: if `e - t < 1800`,
the optimizer returns `e` unchanged; otherwise it returns `t + r` where `r`
is `e - t` rounded up to the next multiple of 1800 (`r % 1800 = 0`,
`e - t ≤ r < e - t + 1800`); in all cases the result is never earlier than
`e`.  Concretely: candidates 70 s / 1900 s / 5600 s from `t = 1000` return
the unrounded earliest `1070`, and with earliest 1900 s away the result is
`t + 3600`, never `t + 1800`. -/
theorem optimize_next_call_rounds_up :
    (∀ (l : List Int) (t e interval : Int), e ∈ l → (∀ x ∈ l, e ≤ x) →
      (e - t < 1800 → optimizeNextCall l t interval = e)
      ∧ (1800 ≤ e - t →
          ∃ r, optimizeNextCall l t interval = t + r
            ∧ r % 1800 = 0 ∧ e - t ≤ r ∧ r < e - t + 1800)
      ∧ e ≤ optimizeNextCall l t interval)
    ∧ optimizeNextCall [1070, 2900, 6600] 1000 3600 = 1070
    ∧ optimizeNextCall [2900, 6600] 1000 3600 = 1000 + 3600
    ∧ optimizeNextCall [2900, 6600] 1000 3600 ≠ 1000 + 1800 := by
  refine ⟨?_, by norm_num [optimizeNextCall, List.mergeSort],
    by norm_num [optimizeNextCall, List.mergeSort, Int.fdiv],
    by norm_num [optimizeNextCall, List.mergeSort, Int.fdiv]⟩
  intro l t e interval he hmin
  have hhead := mergeSort_head_min l e he hmin
  obtain ⟨t', hsort⟩ : ∃ t', l.mergeSort (fun a b => a ≤ b) = e :: t' := by
    cases h : l.mergeSort (fun a b => a ≤ b) with
    | nil => rw [h] at hhead; cases hhead
    | cons a tl =>
      rw [h] at hhead
      simp only [List.head?_cons, Option.some.injEq] at hhead
      exact ⟨tl, by rw [hhead]⟩
  unfold optimizeNextCall
  rw [hsort]
  simp only []
  rw [Int.fdiv_eq_ediv _ (by norm_num)]
  by_cases hc : e - t < 1800
  · rw [if_pos hc]
    refine ⟨fun _ => rfl, fun habs => absurd habs (by omega), by omega⟩
  · rw [if_neg hc]
    push_neg at hc
    refine ⟨fun habs => absurd habs (by omega), fun _ => ?_, ?_⟩
    · refine ⟨(e - t + 1800 - 1) / 1800 * 1800, rfl, Int.mul_emod_left _ _, ?_, ?_⟩
      · omega
      · omega
    · have h1 : e - t ≤ (e - t + 1800 - 1) / 1800 * 1800 := by omega
      omega

/-- Witness for `optimize_next_call_rounds_up`. -/
theorem optimize_next_call_rounds_up_witness :
    1070 ≤ optimizeNextCall [1070, 2900, 6600] 1000 3600
    ∧ 2900 ≤ optimizeNextCall [2900, 6600] 1000 3600 := by
  constructor
  · exact (optimize_next_call_rounds_up.1 [1070, 2900, 6600] 1000 1070 3600
      (by norm_num) (by intro x hx; fin_cases hx <;> norm_num)).2.2
  · exact (optimize_next_call_rounds_up.1 [2900, 6600] 1000 2900 3600
      (by norm_num) (by intro x hx; fin_cases hx <;> norm_num)).2.2

/-! ## Wait-time parsing (`_parse_wait_time`, auto_raise.py 381-449)

The parser lowercases the message and, for each unit (hours, then minutes,
then seconds), tries an ordered list of regular-expression patterns, adding
the first match's contribution and stopping at the first pattern that
matches anywhere in the message.  Every pattern has the shape
"digits (optional fraction, hours only), optional whitespace, literal,
optional one-character class, optional word boundary", with the digit run,
whitespace run and fraction matched greedily; since the character classes
involved (digits, whitespace, the literals' first characters) are pairwise
disjoint, greedy matching without backtracking — except the one explicit
fraction fallback — reproduces Python `re.search` semantics, and scanning
start positions left to right reproduces leftmost matching.  Fractional
hours contribute `int(hours * 3600)`, modelled as the exact rational floor
`n * 3600 + f * 3600 / 10^k`.  `str.lower` is modelled for the ASCII and
Cyrillic alphabets the patterns use. -/

def lowerChar (c : Char) : Char :=
  if 'A' ≤ c ∧ c ≤ 'Z' then Char.ofNat (c.toNat + 32)
  else if 0x410 ≤ c.toNat ∧ c.toNat ≤ 0x42F then Char.ofNat (c.toNat + 0x20)
  else if c.toNat = 0x401 then Char.ofNat 0x451
  else c
def isSpaceChar (c : Char) : Bool :=
  c = ' ' ∨ c = '\t' ∨ c = '\n' ∨ c = '\r' ∨ c = Char.ofNat 0x0b ∨ c = Char.ofNat 0x0c
def isWordChar (c : Char) : Bool :=
  c.isAlphanum ∨ c = '_' ∨ (0x410 ≤ c.toNat ∧ c.toNat ≤ 0x44F) ∨ c.toNat = 0x401 ∨ c.toNat = 0x451
structure UnitPat where
  allowFrac : Bool
  lit : List Char
  optChars : List Char
  boundary : Bool
def digitsToNat (ds : List Char) : Nat :=
  ds.foldl (fun a c => a * 10 + (c.toNat - '0'.toNat)) 0
def parseDigits (s : List Char) : Option (Nat × Nat × List Char) :=
  let ds := s.takeWhile Char.isDigit
  if ds.isEmpty then none
  else some (digitsToNat ds, ds.length, s.drop ds.length)
def matchTail (p : UnitPat) (s : List Char) : Bool :=
  let s1 := s.dropWhile isSpaceChar
  if p.lit.isPrefixOf s1 then
    let s2 := s1.drop p.lit.length
    let s3 := match s2 with
      | c :: rest => if c ∈ p.optChars then rest else s2
      | [] => s2
    if p.boundary then
      match s3 with
      | [] => true
      | c :: _ => ¬ isWordChar c
    else true
  else false
def matchAt (p : UnitPat) (s : List Char) : Option (Nat × Nat × Nat) :=
  match parseDigits s with
  | none => none
  | some (n, _, rest1) =>
    let noFrac : Option (Nat × Nat × Nat) :=
      if matchTail p rest1 then some (n, 0, 1) else none
    if p.allowFrac then
      match rest1 with
      | '.' :: r2 =>
        match parseDigits r2 with
        | some (f, k, r3) =>
          if matchTail p r3 then some (n, f, 10 ^ k)
          else noFrac
        | none => noFrac
      | _ => noFrac
    else noFrac
def searchPat (p : UnitPat) : List Char → Option (Nat × Nat × Nat)
  | [] => none
  | s@(_ :: rest) =>
    match matchAt p s with
    | some v => some v
    | none => searchPat p rest
def searchFirst : List UnitPat → List Char → Option (Nat × Nat × Nat)
  | [], _ => none
  | p :: ps, s =>
    match searchPat p s with
    | some v => some v
    | none => searchFirst ps s
def hoursPatterns : List UnitPat :=
  [⟨true, "час".toList, "аов".toList, false⟩,
   ⟨true, "hour".toList, "s".toList, false⟩,
   ⟨true, "hr".toList, "s".toList, false⟩,
   ⟨true, "h".toList, [], true⟩]
def minutesPatterns : List UnitPat :=
  [⟨false, "минут".toList, "ыа".toList, false⟩,
   ⟨false, "minute".toList, "s".toList, false⟩,
   ⟨false, "min".toList, "s".toList, false⟩,
   ⟨false, "м".toList, [], true⟩]
def secondsPatterns : List UnitPat :=
  [⟨false, "секунд".toList, "ыа".toList, false⟩,
   ⟨false, "second".toList, "s".toList, false⟩,
   ⟨false, "sec".toList, "s".toList, false⟩,
   ⟨false, "с".toList, [], true⟩]
def hasInfix : List Char → List Char → Bool
  | [], pat => pat.isEmpty
  | s@(_ :: t), pat => pat.isPrefixOf s || hasInfix t pat
def parseWaitTime (message : String) : Nat :=
  let ml := message.toList.map lowerChar
  let hoursContribution :=
    match searchFirst hoursPatterns ml with
    | some (n, f, d) => n * 3600 + f * 3600 / d
    | none => 0
  let minutesContribution :=
    match searchFirst minutesPatterns ml with
    | some (n, _, _) => n * 60
    | none => 0
  let secondsContribution :=
    match searchFirst secondsPatterns ml with
    | some (n, _, _) => n
    | none => 0
  let total := hoursContribution + minutesContribution + secondsContribution
  if total > 0 then total
  else if hasInfix ml "подождите".toList || hasInfix ml "wait".toList
      || hasInfix ml "зачекайте".toList then 3600
  else 0

theorem matchAt_none_of_head_not_digit (p : UnitPat) (c : Char) (t : List Char)
    (hc : c.isDigit = false) : matchAt p (c :: t) = none := by
  unfold matchAt parseDigits
  simp [List.takeWhile_cons, hc]

theorem searchPat_none (p : UnitPat) :
    ∀ s : List Char, (∀ c ∈ s, c.isDigit = false) → searchPat p s = none
  | [], _ => by simp [searchPat]
  | c :: t, h => by
    rw [searchPat, matchAt_none_of_head_not_digit p c t (h c (by simp))]
    exact searchPat_none p t (fun c' hc' => h c' (by simp [hc'])) 

theorem searchFirst_none (s : List Char) (h : ∀ c ∈ s, c.isDigit = false) :
    ∀ ps : List UnitPat, searchFirst ps s = none
  | [] => by simp [searchFirst]
  | p :: ps => by
    rw [searchFirst, searchPat_none p s h]
    exact searchFirst_none s h ps

theorem parse_wait_default (m : String)
    (hd : ∀ c ∈ m.toList.map lowerChar, c.isDigit = false)
    (hk : hasInfix (m.toList.map lowerChar) "подождите".toList = true
        ∨ hasInfix (m.toList.map lowerChar) "wait".toList = true
        ∨ hasInfix (m.toList.map lowerChar) "зачекайте".toList = true) :
    parseWaitTime m = 3600 := by
  have hor : (hasInfix (m.toList.map lowerChar) "подождите".toList
      || hasInfix (m.toList.map lowerChar) "wait".toList
      || hasInfix (m.toList.map lowerChar) "зачекайте".toList) = true := by
    simp only [Bool.or_eq_true]
    rcases hk with h | h | h
    · exact Or.inl (Or.inl h)
    · exact Or.inl (Or.inr h)
    · exact Or.inr h
  simp only [parseWaitTime]
  rw [searchFirst_none _ hd hoursPatterns, searchFirst_none _ hd minutesPatterns,
    searchFirst_none _ hd secondsPatterns, hor]
  simp


/-- C3.  The wait-time parser maps "Подождите 2 часа 30 минут" to 9000 s,
"wait 45 seconds" to 45 s, and "please wait" (no units) to the default
3600 s; units are matched hours, then minutes, then seconds, each unit over
an ordered long-form-then-abbreviated pattern list with only the first
match per unit contributing (e.g. "wait 2 hrs 1 hour" parses as 3600, the
long-form `hour[s]?` pattern winning over the abbreviated `hr[s]?`); and
any message without digits that contains one of the wait keywords
(подождите / wait / зачекайте) yields the default 3600. -/
theorem parse_wait_time_theorem :
    parseWaitTime "Подождите 2 часа 30 минут" = 9000
    ∧ parseWaitTime "wait 45 seconds" = 45
    ∧ parseWaitTime "please wait" = 3600
    ∧ parseWaitTime "wait 2 hrs 1 hour" = 3600
    ∧ (∀ m : String, (∀ c ∈ m.toList.map lowerChar, c.isDigit = false) →
        (hasInfix (m.toList.map lowerChar) "подождите".toList = true
         ∨ hasInfix (m.toList.map lowerChar) "wait".toList = true
         ∨ hasInfix (m.toList.map lowerChar) "зачекайте".toList = true) →
        parseWaitTime m = 3600) :=
  ⟨by rfl, by rfl, by rfl, by rfl, parse_wait_default⟩

/-- Witness for `parse_wait_time_theorem`. -/
theorem parse_wait_time_theorem_witness :
    parseWaitTime "пожалуйста, подождите немного" = 3600 :=
  parse_wait_time_theorem.2.2.2.2 "пожалуйста, подождите немного"
    (by decide) (Or.inl (by decide))

/-! ## Bump outcome scheduling (`_raise_game_lots`, auto_raise.py 273-379)

The decision core of `_raise_game_lots`: the bump call either returns a
response object or raises (`Except.error` carrying `str(e)`); a non-success
response is re-raised with `error or message or "Неизвестная ошибка"` and
lands in the same handler.  `current_time` is the loop's timestamp taken on
entry to `_raise_lots`; `new_time` is `int(time.time())` taken inside the
success branch (the attempt-completion time).  Sleeps and logging are
I/O-only and omitted. -/


structure BumpResponse where
  success : Option Bool
  error : Option String
  message : Option String

def strTruthy : Option String → Bool
  | some s => ¬ s = ""
  | none => false

/-- `response.get("success") or (not response.get("error") and response.get("success") != False)` -/
def bumpSucceeded (r : BumpResponse) : Bool :=
  (r.success = some true) || (!strTruthy r.error && ¬ r.success = some false)

def orElseStr (a : Option String) (b : String) : String :=
  match a with
  | some s => if s = "" then b else s
  | none => b

/-- `error = response.get("error") or response.get("message") or "Неизвестная ошибка"` -/
def bumpErrorMsg (r : BumpResponse) : String :=
  orElseStr r.error (orElseStr r.message "Неизвестная ошибка")

def containsAnyLowered (msg : String) (kws : List String) : Bool :=
  kws.any (fun k => hasInfix (msg.toList.map lowerChar) k.toList)

def noLotsKeywords : List String := ["нет лотов", "no offers", "no lots", "немає лотів"]

def waitKeywords : List String := ["подождите", "wait", "зачекайте", "через"]

def raiseClassify (errorMsg : String) (currentTime : Int) : Int :=
  if containsAnyLowered errorMsg noLotsKeywords then currentTime + 300
  else if containsAnyLowered errorMsg waitKeywords then
    let waitTime := parseWaitTime errorMsg
    if waitTime ≠ 0 then currentTime + (waitTime : Int) else currentTime + 60
  else if hasInfix errorMsg.toList "429".toList || hasInfix errorMsg.toList "403".toList
      || hasInfix errorMsg.toList "503".toList then currentTime + 60
  else currentTime + 60

def raiseGameLots (result : Except String BumpResponse)
    (interval currentTime newTime : Int) : Int :=
  match result with
  | .ok resp =>
    if bumpSucceeded resp then newTime + interval
    else raiseClassify (bumpErrorMsg resp) currentTime
  | .error e => raiseClassify e currentTime

/-- C8 counterexample.  The error message "через" is recognized as a
throttle message (`"через"` is in the outer keyword list, auto_raise.py 344)
but `_parse_wait_time` returns 0 for it (no units, and `"через"` is not in
the parser's own default-keyword list, 446): the code then schedules
`current_time + 60`, not `current_time + 3600` (the default wait) as the
claim states. -/
theorem throttle_parse_zero_not_default_wait :
    parseWaitTime "через" = 0
    ∧ raiseGameLots (.error "через") 9000 1000 2000 = 1000 + 60
    ∧ raiseGameLots (.error "через") 9000 1000 2000 ≠ 1000 + 3600 := by
  refine ⟨by rfl, by rfl, by decide⟩

/-- C8 (amended).  `_raise_game_lots` schedules the next run as: success →
attempt-completion time + base interval; throttle message with nonzero
parsed duration d → current_time + d; throttle message whose parsing yields
zero → current_time + 60 (the short fixed delay, not the default wait);
HTTP 429/403/503 error text → current_time + 60; "no offers to bump" →
current_time + 300.  The branches are tested in the code's order:
no-offers, then throttle, then 429/403/503. -/
theorem raise_game_lots_outcomes :
    (∀ (resp : BumpResponse) (interval ct nt : Int), bumpSucceeded resp = true →
      raiseGameLots (.ok resp) interval ct nt = nt + interval)
    ∧ (∀ (e : String) (interval ct nt : Int),
        containsAnyLowered e noLotsKeywords = false →
        containsAnyLowered e waitKeywords = true →
        parseWaitTime e ≠ 0 →
        raiseGameLots (.error e) interval ct nt = ct + (parseWaitTime e : Int))
    ∧ (∀ (e : String) (interval ct nt : Int),
        containsAnyLowered e noLotsKeywords = false →
        containsAnyLowered e waitKeywords = true →
        parseWaitTime e = 0 →
        raiseGameLots (.error e) interval ct nt = ct + 60)
    ∧ (∀ (e : String) (interval ct nt : Int),
        containsAnyLowered e noLotsKeywords = false →
        containsAnyLowered e waitKeywords = false →
        (hasInfix e.toList "429".toList = true ∨ hasInfix e.toList "403".toList = true
          ∨ hasInfix e.toList "503".toList = true) →
        raiseGameLots (.error e) interval ct nt = ct + 60)
    ∧ (∀ (e : String) (interval ct nt : Int),
        containsAnyLowered e noLotsKeywords = true →
        raiseGameLots (.error e) interval ct nt = ct + 300) := by
  refine ⟨?_, ?_, ?_, ?_, ?_⟩
  · intro resp interval ct nt h
    simp [raiseGameLots, h]
  · intro e interval ct nt h1 h2 h3
    simp [raiseGameLots, raiseClassify, h1, h2, h3]
  · intro e interval ct nt h1 h2 h3
    simp [raiseGameLots, raiseClassify, h1, h2, h3]
  · intro e interval ct nt h1 h2 h3
    rcases h3 with h | h | h <;>
      simp [raiseGameLots, raiseClassify, h1, h2, h]
  · intro e interval ct nt h1
    simp [raiseGameLots, raiseClassify, h1]

/-- Witness for `raise_game_lots_outcomes`. -/
theorem raise_game_lots_outcomes_witness :
    raiseGameLots (.ok ⟨some true, none, none⟩) 9000 1000 2000 = 2000 + 9000
    ∧ raiseGameLots (.error "подождите 5 минут") 9000 1000 2000 = 1000 + (300 : Nat)
    ∧ raiseGameLots (.error "ошибка сервера 429") 9000 1000 2000 = 1000 + 60
    ∧ raiseGameLots (.error "нет лотов") 9000 1000 2000 = 1000 + 300 := by
  refine ⟨?_, ?_, ?_, ?_⟩
  · exact raise_game_lots_outcomes.1 ⟨some true, none, none⟩ 9000 1000 2000 (by rfl)
  · exact raise_game_lots_outcomes.2.1 "подождите 5 минут" 9000 1000 2000
      (by rfl) (by rfl) (by decide)
  · exact raise_game_lots_outcomes.2.2.2.1 "ошибка сервера 429" 9000 1000 2000
      (by rfl) (by rfl) (Or.inl (by rfl))
  · exact raise_game_lots_outcomes.2.2.2.2 "нет лотов" 9000 1000 2000 (by rfl)


/-! ## Ticket cooldown (`AutoTicketService`, autoticket.py)

`_load_last_ticket_time` (40-53) reads `cache/last_ticket_time.json` and
falls back to 0 when the file is missing or unreadable; the persisted value
is modelled as `Option Int` (`none` = no readable cache).
`can_send_ticket` (85-109) treats 0 as "never sent".  `send_ticket`
(127-239) validates its inputs, performs one HTTP POST (outcome modelled as
a status code, an `aiohttp.ClientError`, or an unexpected exception) and
updates + persists the last-ticket time exactly in the 200 branch; its
Russian result messages are kept verbatim. -/


def loadLastTicketTime (persisted : Option Int) : Int := persisted.getD 0

def canSendTicket (lastTicketTime : Int) (now : Int) (interval : Int) : Bool :=
  if lastTicketTime = 0 then true
  else if now - lastTicketTime < interval then false
  else true

structure TicketState where
  lastTicketTime : Int
  persisted : Option Int
deriving DecidableEq, Repr

inductive HttpOutcome
  | status (code : Nat)
  | clientError (msg : String)
  | unexpectedError (msg : String)
deriving DecidableEq, Repr

def sendTicket (st : TicketState) (orderIds : List String) (cookie : String)
    (outcome : HttpOutcome) (now : Int) : (Bool × String) × TicketState :=
  if orderIds = [] then ((false, "Пустой список заказов"), st)
  else if cookie = "" then ((false, "Отсутствует session_cookie"), st)
  else match outcome with
    | .status code =>
      if code = 200 then
        ((true, "Тикет создан (" ++ toString orderIds.length ++ " заказов)"),
         ⟨now, some now⟩)
      else if code = 401 then ((false, "Ошибка авторизации (истекла сессия)"), st)
      else if code = 400 then ((false, "Неверные данные запроса"), st)
      else if code = 429 then ((false, "Слишком много запросов (rate limit)"), st)
      else ((false, "Ошибка API: " ++ toString code), st)
    | .clientError m => ((false, "Ошибка соединения: " ++ (m.take 100)), st)
    | .unexpectedError m => ((false, "Ошибка: " ++ (m.take 100)), st)

/-- C10.  `send_ticket` returns success iff the order list is nonempty, the
session cookie is present and the HTTP response status is 200; exactly on
success it sets the last-ticket time to now and persists it, and on every
failure (empty list, missing cookie, non-200 status, connection or
unexpected error) the cooldown state is unchanged. -/
theorem send_ticket_updates_iff_success :
    ∀ (st : TicketState) (ids : List String) (cookie : String)
      (outcome : HttpOutcome) (now : Int),
      ((sendTicket st ids cookie outcome now).1.1 = true
        ↔ (ids ≠ [] ∧ cookie ≠ "" ∧ outcome = .status 200))
      ∧ ((sendTicket st ids cookie outcome now).1.1 = true →
          (sendTicket st ids cookie outcome now).2 = ⟨now, some now⟩)
      ∧ ((sendTicket st ids cookie outcome now).1.1 = false →
          (sendTicket st ids cookie outcome now).2 = st) := by
  intro st ids cookie outcome now
  by_cases hids : ids = []
  · simp [sendTicket, hids]
  · by_cases hcookie : cookie = ""
    · simp [sendTicket, hids, hcookie]
    · cases outcome with
      | status code =>
        by_cases h200 : code = 200
        · simp [sendTicket, hids, hcookie, h200]
        · by_cases h401 : code = 401
          · simp [sendTicket, hids, hcookie, h200, h401]
          · by_cases h400 : code = 400
            · simp [sendTicket, hids, hcookie, h200, h401, h400]
            · by_cases h429 : code = 429
              · simp [sendTicket, hids, hcookie, h200, h401, h400, h429]
              · simp [sendTicket, hids, hcookie, h200, h401, h400, h429]
      | clientError m => simp [sendTicket, hids, hcookie]
      | unexpectedError m => simp [sendTicket, hids, hcookie]

/-- C5.  After a successful `send_ticket` at time `T > 0`, a freshly
constructed `AutoTicketService` loading the same persisted state reports
`can_send_ticket() = false` at every instant before `T + interval` and
`true` once `now - T ≥ interval`; with no recorded send (missing cache,
loaded value 0) it always reports `true`. -/
theorem ticket_cooldown_persistence :
    (∀ (st : TicketState) (ids : List String) (cookie : String) (T now interval : Int),
      ids ≠ [] → cookie ≠ "" → 0 < T →
      (now < T + interval →
        canSendTicket
          (loadLastTicketTime (sendTicket st ids cookie (.status 200) T).2.persisted)
          now interval = false)
      ∧ (interval ≤ now - T →
        canSendTicket
          (loadLastTicketTime (sendTicket st ids cookie (.status 200) T).2.persisted)
          now interval = true))
    ∧ (∀ (now interval : Int), canSendTicket (loadLastTicketTime none) now interval = true) := by
  constructor
  · intro st ids cookie T now interval hids hcookie hT
    have hst : (sendTicket st ids cookie (.status 200) T).2 = ⟨T, some T⟩ := by
      simp [sendTicket, hids, hcookie]
    rw [hst]
    simp only [loadLastTicketTime, Option.getD_some]
    constructor
    · intro hnow
      simp [canSendTicket]
      constructor
      · omega
      · omega
    · intro hnow
      simp [canSendTicket]
      right
      exact hnow
  · intro now interval
    simp [canSendTicket, loadLastTicketTime]


/-- Witness for `send_ticket_updates_iff_success`. -/
theorem send_ticket_updates_iff_success_witness :
    (sendTicket ⟨5, some 5⟩ ["o1"] "ck" (.status 401) 1000).2 = ⟨5, some 5⟩
    ∧ (sendTicket ⟨5, some 5⟩ ["o1"] "ck" (.status 200) 1000).2 = ⟨1000, some 1000⟩ := by
  constructor
  · exact (send_ticket_updates_iff_success ⟨5, some 5⟩ ["o1"] "ck"
      (.status 401) 1000).2.2 (by rfl)
  · exact (send_ticket_updates_iff_success ⟨5, some 5⟩ ["o1"] "ck"
      (.status 200) 1000).2.1 (by rfl)

/-- Witness for `ticket_cooldown_persistence`. -/
theorem ticket_cooldown_persistence_witness :
    canSendTicket (loadLastTicketTime
      (sendTicket ⟨0, none⟩ ["o1"] "ck" (.status 200) 1000).2.persisted) 1500 3600 = false
    ∧ canSendTicket (loadLastTicketTime
      (sendTicket ⟨0, none⟩ ["o1"] "ck" (.status 200) 1000).2.persisted) 5000 3600 = true := by
  constructor
  · exact (ticket_cooldown_persistence.1 ⟨0, none⟩ ["o1"] "ck" 1000 1500 3600
      (by decide) (by decide) (by norm_num)).1 (by norm_num)
  · exact (ticket_cooldown_persistence.1 ⟨0, none⟩ ["o1"] "ck" 1000 5000 3600
      (by decide) (by decide) (by norm_num)).2 (by norm_num)

/-! ## Notification dedup (`BackgroundTasks._check_new_messages`, tasks.py 132-240)

One message event as the job sees it: `chat_id`, `message.get("id")` (falsy
-> `none`), the content (`message.get("content") or message.get("text", "")`,
`""` = falsy), and three booleans abstracting the config blacklist check
(161-165), the own-message check (184-194) and the support-role check (204).
`_seen_messages : dict[str, set[str]]` is modelled as an association list of
per-chat id lists.  `processMsg` is one iteration of the per-message loop
(146-237): the skip guards in code order, then the seen-set check (196-201),
the notification (207-225) and the seen-set insertion (227-229).
`processPoll` is one job invocation over the `check_new_messages` result;
`processRun` is a sequence of invocations sharing the per-process state. -/


structure TMsg where
  chatId : String
  msgId : Option String
  content : String
  blacklisted : Bool
  isOwn : Bool
  support : Bool
deriving DecidableEq, Repr

structure Notif where
  chatId : String
  msgId : Option String
  support : Bool
deriving DecidableEq, Repr

def Seen : Type := List (String × List String)

def seenLookup (seen : Seen) (cid : String) : List String :=
  ((seen.find? (fun e => e.1 = cid)).map Prod.snd).getD []

def seenInsert (seen : Seen) (cid : String) (mid : String) : Seen :=
  (cid, mid :: seenLookup seen cid) :: seen.filter (fun e => ¬ e.1 = cid)

def processMsg (seen : Seen) (m : TMsg) : Option Notif × Seen :=
  if m.content = "" then (none, seen)
  else if m.blacklisted then (none, seen)
  else if m.isOwn then (none, seen)
  else
    match m.msgId with
    | some mid =>
      if mid ∈ seenLookup seen m.chatId then (none, seen)
      else (some ⟨m.chatId, some mid, m.support⟩, seenInsert seen m.chatId mid)
    | none => (some ⟨m.chatId, none, m.support⟩, seen)

def processPoll (seen : Seen) : List TMsg → List Notif × Seen
  | [] => ([], seen)
  | m :: rest =>
    let r := processMsg seen m
    let r2 := processPoll r.2 rest
    (r.1.toList ++ r2.1, r2.2)

def processRun (seen : Seen) : List (List TMsg) → List Notif × Seen
  | [] => ([], seen)
  | poll :: rest =>
    let r := processPoll seen poll
    let r2 := processRun r.2 rest
    (r.1 ++ r2.1, r2.2)

def notifMatches (cid mid : String) (n : Notif) : Bool :=
  n.chatId = cid ∧ n.msgId = some mid

theorem seenLookup_insert_self (seen : Seen) (c m : String) :
    seenLookup (seenInsert seen c m) c = m :: seenLookup seen c := by
  simp [seenInsert, seenLookup, List.find?_cons]

theorem find?_filter_ne (c c' : String) (h : c' ≠ c) :
    ∀ (l : List (String × List String)),
      (l.filter (fun e => ¬ e.1 = c)).find? (fun e => e.1 = c')
        = l.find? (fun e => e.1 = c')
  | [] => rfl
  | e :: t => by
    rw [List.filter_cons]
    by_cases he : e.1 = c
    · rw [if_neg (by simp [he])]
      rw [find?_filter_ne c c' h t]
      have hne : ¬ e.1 = c' := fun hc => h (by rw [← hc, he])
      simp only [List.find?_cons, decide_eq_false hne]
    · rw [if_pos (by simp [he])]
      by_cases he' : e.1 = c'
      · simp only [List.find?_cons, decide_eq_true_eq, he', decide_True]
      · simp only [List.find?_cons, decide_eq_false he']
        exact find?_filter_ne c c' h t

theorem seenLookup_insert_other (seen : Seen) (c c' m : String) (h : c' ≠ c) :
    seenLookup (seenInsert seen c m) c' = seenLookup seen c' := by
  have hcc : ¬ c = c' := fun hc => h hc.symm
  simp only [seenInsert, seenLookup, List.find?_cons, decide_eq_false hcc]
  rw [find?_filter_ne c c' h seen]


theorem countP_option_toList (o : Option Notif) (p : Notif → Bool) :
    o.toList.countP p ≤ 1 := by
  cases o <;> simp [List.countP_cons]
  split <;> omega

theorem processMsg_dedup (cid mid : String) (m : TMsg) (seen : Seen) :
    (mid ∈ seenLookup seen cid →
      ((processMsg seen m).1.toList.countP (notifMatches cid mid) = 0))
    ∧ (processMsg seen m).1.toList.countP (notifMatches cid mid) ≤ 1
    ∧ ((mid ∈ seenLookup seen cid ∨
        1 ≤ (processMsg seen m).1.toList.countP (notifMatches cid mid)) →
       mid ∈ seenLookup (processMsg seen m).2 cid) := by
  by_cases h1 : m.content = ""
  · simp [processMsg, h1]
  · by_cases h2 : m.blacklisted
    · simp [processMsg, h1, h2]
    · by_cases h3 : m.isOwn
      · simp [processMsg, h1, h2, h3]
      · cases hmid : m.msgId with
        | none =>
          simp [processMsg, h1, h2, h3, hmid, notifMatches, List.countP_cons]
        | some mid' =>
          by_cases hseen : mid' ∈ seenLookup seen m.chatId
          · simp [processMsg, h1, h2, h3, hmid, hseen]
          · by_cases hchat : m.chatId = cid
            · by_cases hm : mid' = mid
              · subst hchat; subst hm
                refine ⟨?_, ?_, ?_⟩
                · intro habs
                  exact absurd habs hseen
                · simp [processMsg, h1, h2, h3, hmid, hseen, notifMatches,
                    List.countP_cons]
                · intro _
                  simp only [processMsg, h1, h2, h3, hmid, hseen]
                  simp [seenLookup_insert_self]
              · refine ⟨?_, ?_, ?_⟩
                · intro hm2
                  simp [processMsg, h1, h2, h3, hmid, hseen, notifMatches,
                    List.countP_cons, hm]
                · simp [processMsg, h1, h2, h3, hmid, hseen, notifMatches,
                    List.countP_cons, hm]
                · intro hc
                  rcases hc with hc | hc
                  · subst hchat
                    simp only [processMsg, h1, h2, h3, hmid, hseen]
                    simp [seenLookup_insert_self]
                    right; exact hc
                  · simp [processMsg, h1, h2, h3, hmid, hseen, notifMatches,
                      List.countP_cons, hm] at hc
            · refine ⟨?_, ?_, ?_⟩
              · intro hm2
                simp [processMsg, h1, h2, h3, hmid, hseen, notifMatches,
                  List.countP_cons, hchat]
              · simp [processMsg, h1, h2, h3, hmid, hseen, notifMatches,
                  List.countP_cons, hchat]
              · intro hc
                rcases hc with hc | hc
                · have hred : (processMsg seen m).2 = seenInsert seen m.chatId mid' := by
                    simp [processMsg, h1, h2, h3, hmid, hseen]
                  rw [hred,
                    seenLookup_insert_other seen m.chatId cid mid' (fun hx => hchat hx.symm)]
                  exact hc
                · simp [processMsg, h1, h2, h3, hmid, hseen, notifMatches,
                    List.countP_cons, hchat] at hc


theorem processPoll_dedup (cid mid : String) :
    ∀ (msgs : List TMsg) (seen : Seen),
    (mid ∈ seenLookup seen cid →
      (processPoll seen msgs).1.countP (notifMatches cid mid) = 0)
    ∧ (processPoll seen msgs).1.countP (notifMatches cid mid) ≤ 1
    ∧ ((mid ∈ seenLookup seen cid ∨
        1 ≤ (processPoll seen msgs).1.countP (notifMatches cid mid)) →
       mid ∈ seenLookup (processPoll seen msgs).2 cid)
  | [], seen => by simp [processPoll]
  | m :: rest, seen => by
    obtain ⟨m1, m2, m3⟩ := processMsg_dedup cid mid m seen
    obtain ⟨i1, i2, i3⟩ := processPoll_dedup cid mid rest (processMsg seen m).2
    have hout : (processPoll seen (m :: rest)).1
        = (processMsg seen m).1.toList ++ (processPoll (processMsg seen m).2 rest).1 := rfl
    have hst : (processPoll seen (m :: rest)).2
        = (processPoll (processMsg seen m).2 rest).2 := rfl
    rw [hout, hst, List.countP_append]
    refine ⟨?_, ?_, ?_⟩
    · intro hm
      rw [m1 hm, i1 (m3 (Or.inl hm))]
    · by_cases hm : mid ∈ seenLookup seen cid
      · rw [m1 hm, i1 (m3 (Or.inl hm))]
        omega
      · rcases Nat.eq_zero_or_pos ((processMsg seen m).1.toList.countP (notifMatches cid mid))
          with hz | hp
        · rw [hz]
          simpa using i2
        · have hmem := m3 (Or.inr hp)
          rw [i1 hmem]
          simpa using m2
    · intro hc
      rcases hc with hm | hsum
      · exact i3 (Or.inl (m3 (Or.inl hm)))
      · rcases Nat.eq_zero_or_pos ((processMsg seen m).1.toList.countP (notifMatches cid mid))
          with hz | hp
        · rw [hz, Nat.zero_add] at hsum
          exact i3 (Or.inr hsum)
        · exact i3 (Or.inl (m3 (Or.inr hp)))

theorem processRun_dedup (cid mid : String) :
    ∀ (polls : List (List TMsg)) (seen : Seen),
    (mid ∈ seenLookup seen cid →
      (processRun seen polls).1.countP (notifMatches cid mid) = 0)
    ∧ (processRun seen polls).1.countP (notifMatches cid mid) ≤ 1
    ∧ ((mid ∈ seenLookup seen cid ∨
        1 ≤ (processRun seen polls).1.countP (notifMatches cid mid)) →
       mid ∈ seenLookup (processRun seen polls).2 cid)
  | [], seen => by simp [processRun]
  | poll :: rest, seen => by
    obtain ⟨m1, m2, m3⟩ := processPoll_dedup cid mid poll seen
    obtain ⟨i1, i2, i3⟩ := processRun_dedup cid mid rest (processPoll seen poll).2
    have hout : (processRun seen (poll :: rest)).1
        = (processPoll seen poll).1 ++ (processRun (processPoll seen poll).2 rest).1 := rfl
    have hst : (processRun seen (poll :: rest)).2
        = (processRun (processPoll seen poll).2 rest).2 := rfl
    rw [hout, hst, List.countP_append]
    refine ⟨?_, ?_, ?_⟩
    · intro hm
      rw [m1 hm, i1 (m3 (Or.inl hm))]
    · by_cases hm : mid ∈ seenLookup seen cid
      · rw [m1 hm, i1 (m3 (Or.inl hm))]
        omega
      · rcases Nat.eq_zero_or_pos ((processPoll seen poll).1.countP (notifMatches cid mid))
          with hz | hp
        · rw [hz]
          simpa using i2
        · have hmem := m3 (Or.inr hp)
          rw [i1 hmem]
          simpa using m2
    · intro hc
      rcases hc with hm | hsum
      · exact i3 (Or.inl (m3 (Or.inl hm)))
      · rcases Nat.eq_zero_or_pos ((processPoll seen poll).1.countP (notifMatches cid mid))
          with hz | hp
        · rw [hz, Nat.zero_add] at hsum
          exact i3 (Or.inr hsum)
        · exact i3 (Or.inl (m3 (Or.inr hp)))

/-- C9.  Within a single process run starting from an empty seen-state, for
every chat id and every non-null message id, at most one notification
(`notify_new_message` / `notify_support_message`) is emitted for that
`(chat_id, message_id)` pair across all invocations of the message-check
job; a message whose id is already in its chat's seen set is skipped, and
every notified non-null id is in the seen set immediately after the
notification (hence before the next poll). -/
theorem message_notified_at_most_once :
    (∀ (polls : List (List TMsg)) (cid mid : String),
      (processRun [] polls).1.countP (notifMatches cid mid) ≤ 1)
    ∧ (∀ (seen : Seen) (m : TMsg) (mid' : String),
        m.msgId = some mid' → mid' ∈ seenLookup seen m.chatId →
        (processMsg seen m).1 = none)
    ∧ (∀ (seen : Seen) (m : TMsg) (n : Notif) (mid' : String),
        (processMsg seen m).1 = some n → n.msgId = some mid' →
        mid' ∈ seenLookup (processMsg seen m).2 n.chatId) := by
  refine ⟨?_, ?_, ?_⟩
  · intro polls cid mid
    exact (processRun_dedup cid mid polls []).2.1
  · intro seen m mid' hmid hseen
    by_cases h1 : m.content = ""
    · simp [processMsg, h1]
    · by_cases h2 : m.blacklisted
      · simp [processMsg, h1, h2]
      · by_cases h3 : m.isOwn
        · simp [processMsg, h1, h2, h3]
        · simp [processMsg, h1, h2, h3, hmid, hseen]
  · intro seen m n mid' hn hmid
    by_cases h1 : m.content = ""
    · simp [processMsg, h1] at hn
    · by_cases h2 : m.blacklisted
      · simp [processMsg, h1, h2] at hn
      · by_cases h3 : m.isOwn
        · simp [processMsg, h1, h2, h3] at hn
        · cases hm : m.msgId with
          | none =>
            have : n = ⟨m.chatId, none, m.support⟩ := by
              simp [processMsg, h1, h2, h3, hm] at hn
              exact hn.symm
            rw [this] at hmid
            cases hmid
          | some mid2 =>
            by_cases hseen : mid2 ∈ seenLookup seen m.chatId
            · simp [processMsg, h1, h2, h3, hm, hseen] at hn
            · have hn2 : n = ⟨m.chatId, some mid2, m.support⟩ := by
                simp [processMsg, h1, h2, h3, hm, hseen] at hn
                exact hn.symm
              have hst : (processMsg seen m).2 = seenInsert seen m.chatId mid2 := by
                simp [processMsg, h1, h2, h3, hm, hseen]
              rw [hn2] at hmid
              simp only [Notif.msgId, Option.some.injEq] at hmid
              rw [hst, hn2]
              simp only [Notif.chatId]
              rw [seenLookup_insert_self]
              rw [← hmid]
              exact List.mem_cons_self _ _


/-- Witness for `message_notified_at_most_once`. -/
theorem message_notified_at_most_once_witness :
    (processMsg [("c1", ["m1"])] ⟨"c1", some "m1", "hello", false, false, false⟩).1 = none
    ∧ "m1" ∈ seenLookup
        (processMsg [] ⟨"c1", some "m1", "hello", false, false, false⟩).2 "c1" := by
  constructor
  · exact message_notified_at_most_once.2.1 [("c1", ["m1"])]
      ⟨"c1", some "m1", "hello", false, false, false⟩ "m1" rfl (by decide)
  · exact message_notified_at_most_once.2.2 []
      ⟨"c1", some "m1", "hello", false, false, false⟩ ⟨"c1", some "m1", false⟩ "m1"
      (by decide) rfl

end Starvell
